/-
Verification of the conversation-memory subsystem of the Agentic-chat
repository (`memory.py`): the `SQLiteMemory` transcript store and the
`convert_tuple_list_to_text` history formatter.

Python strings are modelled as lists of Unicode code points (`List Nat`).
The content codec is the pair (`json.dumps` on `str`, `json.loads` with
fallback): both are modelled faithfully from CPython's `json` module
(`json/encoder.py` `py_encode_basestring_ascii` with its default
`ensure_ascii=True`, and `json/decoder.py` / `json/scanner.py` `py_scanstring`,
`py_make_scanner`, `JSONObject`, `JSONArray`, `NUMBER_RE`).

SQLite specifics that matter here and are modelled: `AUTOINCREMENT` ids are
strictly increasing; `LIMIT n` with `n < 0` means "no limit"; `ORDER BY` is
a sort on the selected rows; operations on a closed connection raise
(`sqlite3.ProgrammingError`, the spec's `StoreClosed`).
-/
import Mathlib

namespace AgenticChat

/-- A Python `str`: a sequence of Unicode code points. -/
abbrev PyStr := List Nat

/-- Code-point literal for a Lean character, to write `PyStr` values
readably. -/
def pyc (c : Char) : Nat := c.toNat

/-- A Lean string literal as a `PyStr`. -/
def pystr (s : String) : PyStr := s.data.map pyc

/-- A code point Python's `str` can hold that is a valid Unicode scalar
value (not a surrogate, below 0x110000). -/
def ValidChar (c : Nat) : Prop := c < 0xD800 ∨ (0xE000 ≤ c ∧ c < 0x110000)

instance (c : Nat) : Decidable (ValidChar c) := by
  unfold ValidChar; infer_instance

/-! ### Content Codec, encode direction: `json.dumps` on a `str`
(CPython `json/encoder.py`, `py_encode_basestring_ascii`, the default
`ensure_ascii=True` path). -/

/-- Lower-case hexadecimal digit character for `d < 16`
(CPython formats `\uXXXX` escapes with `'{0:04x}'.format`). -/
def hexDig (d : Nat) : Nat := if d < 10 then 0x30 + d else 0x57 + d

/-- The four hex digit characters of `n % 0x10000`, most significant
first. -/
def hex4digits (n : Nat) : List Nat :=
  [hexDig (n / 4096 % 16), hexDig (n / 256 % 16), hexDig (n / 16 % 16), hexDig (n % 16)]

/-- Escape one code point as `py_encode_basestring_ascii` does: `\"` and
`\\` and the short control escapes from `ESCAPE_DCT`; printable ASCII
verbatim; everything else (controls without a short form, all non-ASCII)
as `\uXXXX`, with a surrogate pair for code points above 0xFFFF. -/
def escapeChar (c : Nat) : List Nat :=
  if c = 0x22 then [0x5C, 0x22]
  else if c = 0x5C then [0x5C, 0x5C]
  else if 0x20 ≤ c ∧ c ≤ 0x7E then [c]
  else if c = 0x08 then [0x5C, 0x62]
  else if c = 0x09 then [0x5C, 0x74]
  else if c = 0x0A then [0x5C, 0x6E]
  else if c = 0x0C then [0x5C, 0x66]
  else if c = 0x0D then [0x5C, 0x72]
  else if c < 0x10000 then 0x5C :: 0x75 :: hex4digits c
  else
    (0x5C :: 0x75 :: hex4digits (0xD800 + (c - 0x10000) / 0x400)) ++
      (0x5C :: 0x75 :: hex4digits (0xDC00 + (c - 0x10000) % 0x400))

/-- `json.dumps(content)` for a `str` value: a double-quoted, escaped
string literal.  This is the Content Codec's encode step, applied by
`SQLiteMemory.save`. -/
def encodeJSONString (s : PyStr) : PyStr :=
  0x22 :: (s.flatMap escapeChar ++ [0x22])

/-! ### Content Codec, decode direction: `json.loads`
(CPython `json/decoder.py` and `json/scanner.py`). -/

/-- Value of one hexadecimal digit character, upper or lower case. -/
def hexVal? (c : Nat) : Option Nat :=
  if 0x30 ≤ c ∧ c ≤ 0x39 then some (c - 0x30)
  else if 0x61 ≤ c ∧ c ≤ 0x66 then some (c - 0x57)
  else if 0x41 ≤ c ∧ c ≤ 0x46 then some (c - 0x37)
  else none

/-- Value of a four-hex-digit escape body (the `int(esc, 16)` of
`_decode_uXXXX`, restricted to the `[0-9a-fA-F]{4}` forms that arise
from well-formed JSON). -/
def hex4? (a b c d : Nat) : Option Nat :=
  match hexVal? a, hexVal? b, hexVal? c, hexVal? d with
  | some w, some x, some y, some z => some (w * 4096 + x * 256 + y * 16 + z)
  | _, _, _, _ => none

/-- The one-character backslash escapes of `py_scanstring`'s `BACKSLASH`
table. -/
def escChar? (e : Nat) : Option Nat :=
  if e = 0x22 then some 0x22
  else if e = 0x5C then some 0x5C
  else if e = 0x2F then some 0x2F
  else if e = 0x62 then some 0x08
  else if e = 0x66 then some 0x0C
  else if e = 0x6E then some 0x0A
  else if e = 0x72 then some 0x0D
  else if e = 0x74 then some 0x09
  else none

/-- `py_scanstring` (strict mode, the default): scan the body of a JSON
string literal after its opening quote.  Returns the decoded code points
and the input remaining after the closing quote; `none` models a raised
`JSONDecodeError` (unterminated string, raw control character, bad
escape).  A `\uXXXX` high surrogate followed by a `\uXXXX` low surrogate
is combined into one code point; a lone surrogate escape is kept as is. -/
def scanString : List Nat → Option (List Nat × List Nat)
  | [] => none
  | 0x22 :: rest => some ([], rest)
  | 0x5C :: 0x75 :: a :: b :: c' :: d :: 0x5C :: 0x75 :: a2 :: b2 :: c2 :: d2 :: rest3 =>
    -- a `\uXXXX` escape whose lookahead window is itself `\u` plus four chars
    match hex4? a b c' d with
    | none => none
    | some n =>
      if 0xD800 ≤ n ∧ n ≤ 0xDBFF then
        match hex4? a2 b2 c2 d2 with
        | none => none
        | some m =>
          if 0xDC00 ≤ m ∧ m ≤ 0xDFFF then
            (scanString rest3).map
              (fun p => ((0x10000 + (n - 0xD800) * 0x400 + (m - 0xDC00)) :: p.1, p.2))
          else
            -- lone high surrogate; rescan from the second escape
            (scanString (0x5C :: 0x75 :: a2 :: b2 :: c2 :: d2 :: rest3)).map
              (fun p => (n :: p.1, p.2))
      else
        (scanString (0x5C :: 0x75 :: a2 :: b2 :: c2 :: d2 :: rest3)).map
          (fun p => (n :: p.1, p.2))
  | 0x5C :: 0x75 :: a :: b :: c' :: d :: rest2 =>
    -- a `\uXXXX` escape not followed by a full `\u`-plus-four-chars window
    match hex4? a b c' d with
    | none => none
    | some n =>
      if 0xD800 ≤ n ∧ n ≤ 0xDBFF then
        if rest2.take 2 = [0x5C, 0x75] then none -- truncated lookahead escape raises
        else (scanString rest2).map (fun p => (n :: p.1, p.2))
      else (scanString rest2).map (fun p => (n :: p.1, p.2))
  | 0x5C :: e :: rest2 =>
    match escChar? e with
    | some d => (scanString rest2).map (fun p => (d :: p.1, p.2))
    | none => none
  | [0x5C] => none
  | c :: rest =>
    if c < 0x20 then none
    else (scanString rest).map (fun p => (c :: p.1, p.2))
termination_by s => s.length
decreasing_by all_goals simp +arith [List.length]

/-- A deserialized Python value as produced by `json.loads`.  Float
values are kept as their source literal (their numeric value is never
inspected by the code under verification); integers carry their value. -/
inductive PyVal where
  | str (s : List Nat)
  | int (n : Int)
  | float (lit : List Nat)
  | bool (b : Bool)
  | none_
  | list (xs : List PyVal)
  | dict (kvs : List (List Nat × PyVal))

/-- JSON whitespace (the decoder's `WHITESPACE` class). -/
def isJSONWS (c : Nat) : Bool := c = 0x20 || c = 0x09 || c = 0x0A || c = 0x0D

/-- Skip leading JSON whitespace. -/
def dropWS (s : List Nat) : List Nat := s.dropWhile isJSONWS

def isDigit (c : Nat) : Bool := 0x30 ≤ c && c ≤ 0x39

def digitsToNat (ds : List Nat) : Nat := ds.foldl (fun acc d => acc * 10 + (d - 0x30)) 0

/-- Match the decoder's `NUMBER_RE` at the head of the input and convert
the match as `py_make_scanner` does: `int` when only the integer part is
present, `float` when a fraction or exponent part matched.  Returns the
value and the unconsumed input; `none` when the regex does not match. -/
def parseNumberTok (s : List Nat) : Option (PyVal × List Nat) :=
  -- optional sign
  let (neg, s1) := match s with
    | 0x2D :: r => (true, r)
    | _ => (false, s)
  -- integer part: `0` or `[1-9][0-9]*`
  match s1 with
  | [] => none
  | c :: r =>
    if c = 0x30 then
      numTail neg [c] r
    else if 0x31 ≤ c && c ≤ 0x39 then
      let ds := r.takeWhile isDigit
      numTail neg (c :: ds) (r.drop ds.length)
    else none
where
  /-- Fraction and exponent parts after the integer part. -/
  numTail (neg : Bool) (intDs : List Nat) (r : List Nat) : Option (PyVal × List Nat) :=
    -- fraction: `\.[0-9]+`, or nothing
    let (fracDs, r2) := match r with
      | 0x2E :: t =>
        let ds := t.takeWhile isDigit
        if ds.isEmpty then (([] : List Nat), r) else (0x2E :: ds, t.drop ds.length)
      | _ => ([], r)
    -- exponent: `[eE][-+]?[0-9]+`, or nothing
    let (expDs, r3) := match r2 with
      | e :: t =>
        if e = 0x65 || e = 0x45 then
          let (sgn, t2) := match t with
            | 0x2B :: u => ([0x2B], u)
            | 0x2D :: u => ([0x2D], u)
            | _ => (([] : List Nat), t)
          let ds := t2.takeWhile isDigit
          if ds.isEmpty then (([] : List Nat), r2) else (e :: (sgn ++ ds), t2.drop ds.length)
        else ([], r2)
      | _ => ([], r2)
    let sign : List Nat := if neg then [0x2D] else []
    if fracDs.isEmpty ∧ expDs.isEmpty then
      let v : Int := Int.ofNat (digitsToNat intDs)
      some (.int (if neg then -v else v), r3)
    else some (.float (sign ++ intDs ++ fracDs ++ expDs), r3)

mutual

/-- `scan_once` of `py_make_scanner`: dispatch on the first character of
the (whitespace-stripped) input.  `fuel` bounds the recursion depth and
is always supplied large enough (`json_loads` passes twice the input
length) that exhaustion never decides a parse. -/
def parseValue : Nat → List Nat → Option (PyVal × List Nat)
  | 0, _ => none
  | _ + 1, [] => none
  | fuel + 1, c :: rest =>
    if c = 0x22 then (scanString rest).map (fun p => (.str p.1, p.2))
    else if c = 0x7B then parseObject fuel rest
    else if c = 0x5B then parseArray fuel rest
    else
      let s := c :: rest
      if s.take 4 = pystr "null" then some (.none_, s.drop 4)
      else if s.take 4 = pystr "true" then some (.bool true, s.drop 4)
      else if s.take 5 = pystr "false" then some (.bool false, s.drop 5)
      else match parseNumberTok s with
      | some p => some p
      | none =>
        if s.take 3 = pystr "NaN" then some (.float (pystr "NaN"), s.drop 3)
        else if s.take 8 = pystr "Infinity" then some (.float (pystr "Infinity"), s.drop 8)
        else if s.take 9 = pystr "-Infinity" then some (.float (pystr "-Infinity"), s.drop 9)
        else none

/-- `JSONArray`: the input starts just after the `[`. -/
def parseArray : Nat → List Nat → Option (PyVal × List Nat)
  | 0, _ => none
  | fuel + 1, s =>
    let s1 := dropWS s
    match s1 with
    | 0x5D :: r => some (.list [], r)
    | _ => parseArrayItems fuel s1 []

/-- The element loop of `JSONArray` (`acc` holds parsed elements in
reverse). -/
def parseArrayItems : Nat → List Nat → List PyVal → Option (PyVal × List Nat)
  | 0, _, _ => none
  | fuel + 1, s, acc =>
    match parseValue fuel s with
    | none => none
    | some (v, r) =>
      match dropWS r with
      | 0x5D :: r2 => some (.list (acc ++ [v]), r2)
      | 0x2C :: r2 => parseArrayItems fuel (dropWS r2) (acc ++ [v])
      | _ => none

/-- `JSONObject`: the input starts just after the `{`. -/
def parseObject : Nat → List Nat → Option (PyVal × List Nat)
  | 0, _ => none
  | fuel + 1, s =>
    let s1 := dropWS s
    match s1 with
    | 0x7D :: r => some (.dict [], r)
    | 0x22 :: r => parseObjectItems fuel r []
    | _ => none

/-- The member loop of `JSONObject`; entered with the input just after a
key's opening quote. -/
def parseObjectItems : Nat → List Nat → List (List Nat × PyVal) → Option (PyVal × List Nat)
  | 0, _, _ => none
  | fuel + 1, s, acc =>
    match scanString s with
    | none => none
    | some (key, r) =>
      match dropWS r with
      | 0x3A :: r2 =>
        match parseValue fuel (dropWS r2) with
        | none => none
        | some (v, r3) =>
          match dropWS r3 with
          | 0x7D :: r4 => some (.dict (acc ++ [(key, v)]), r4)
          | 0x2C :: r4 =>
            match dropWS r4 with
            | 0x22 :: r5 => parseObjectItems fuel r5 (acc ++ [(key, v)])
            | _ => none
          | _ => none
      | _ => none

end

/-- `json.loads(s)`: strip surrounding whitespace, parse exactly one JSON
value, and require the input to be exhausted ("Extra data" otherwise).
`none` models a raised `ValueError`/`JSONDecodeError`. -/
def json_loads (s : List Nat) : Option PyVal :=
  match parseValue (3 * (dropWS s).length + 3) (dropWS s) with
  | none => none
  | some (v, r) => if dropWS r = [] then some v else none

/-! ### History Formatter: `convert_tuple_list_to_text` (memory.py). -/

/-- Python `str.strip` with argument a single double-quote character:
remove all leading and all trailing `"` characters. -/
def stripQuotes (s : PyStr) : PyStr :=
  ((s.dropWhile (· = 0x22)).reverse.dropWhile (· = 0x22)).reverse

/-- The per-element step of `convert_tuple_list_to_text`:
`try: clean_element = json.loads(element)` with
`except (json.JSONDecodeError, TypeError): clean_element = str(element).strip(...)`
(`str` on a `str` is the identity). -/
def decodeElement (e : PyStr) : PyVal :=
  match json_loads e with
  | some v => v
  | none => .str (stripQuotes e)

/-- The strings of a list of values, `none` when some value is not a
`str`. -/
def strList? : List PyVal → Option (List PyStr)
  | [] => some []
  | .str s :: t => (strList? t).map (fun l => s :: l)
  | _ => none

/-- Python `sep.join(vs)`: `none` models the `TypeError` raised when some
element is not a `str`. -/
def joinStrs (sep : PyStr) (vs : List PyVal) : Option PyStr :=
  (strList? vs).map (List.intercalate sep)

/-- The `": "` separator the formatter puts between the elements of one
tuple. -/
def colonSep : PyStr := [0x3A, 0x20]

/-- The `formatted_parts` list of `convert_tuple_list_to_text`: one
`": "`-joined string per tuple, `none` when some tuple's join raises. -/
def formattedParts : List (PyStr × PyStr) → Option (List PyStr)
  | [] => some []
  | (r, c) :: t =>
    match joinStrs colonSep [decodeElement r, decodeElement c] with
    | none => none
    | some s => (formattedParts t).map (fun l => s :: l)

/-- `convert_tuple_list_to_text(data)`: decode each element of each tuple
via `decodeElement`, join a tuple's elements with `": "`, join the tuples
with newlines.  `none` models a raised `TypeError` (a decoded element that
is not a `str` reaching `": ".join`). -/
def convert_tuple_list_to_text (data : List (PyStr × PyStr)) : Option PyStr :=
  (formattedParts data).map (List.intercalate [0x0A])

/-! ### Transcript Store: `SQLiteMemory` (memory.py). -/

/-- One row of the `memory` table. -/
structure Entry where
  id : Nat
  role : PyStr
  content : PyStr
  timestamp : Nat
  is_checkpoint : Bool
deriving DecidableEq

/-- The store: the rows of the `memory` table in insertion order, the id
`AUTOINCREMENT` will assign next, and whether `close()` has been called
on the connection. -/
structure SQLiteMemory where
  entries : List Entry
  nextId : Nat
  closed : Bool
deriving DecidableEq

/-- Errors surfaced as Python exceptions by the store.  `storeClosed`
models the `sqlite3.ProgrammingError` raised by `execute` on a closed
connection (the spec's `StoreClosed`). -/
inductive MemErr where
  | storeClosed
deriving DecidableEq

/-- A freshly opened store: empty table, `AUTOINCREMENT` starts at 1. -/
def SQLiteMemory.init : SQLiteMemory := ⟨[], 1, false⟩

/-- Well-formedness of a reachable store state: row ids are strictly
increasing in table order and below the next `AUTOINCREMENT` value. -/
def WF (m : SQLiteMemory) : Prop :=
  m.entries.Pairwise (fun a b => a.id < b.id) ∧ ∀ e ∈ m.entries, e.id < m.nextId

instance (m : SQLiteMemory) : Decidable (WF m) := by
  unfold WF; infer_instance

/-- `SQLiteMemory.save(role, content)`: encode `content` with
`json.dumps` and insert a non-checkpoint row.  The timestamp is the
caller's clock reading (`datetime.now().isoformat()` modelled as an
opaque number). -/
def SQLiteMemory.save (m : SQLiteMemory) (role content : PyStr) (ts : Nat) :
    Except MemErr SQLiteMemory :=
  if m.closed then .error .storeClosed
  else .ok { entries := m.entries ++ [⟨m.nextId, role, encodeJSONString content, ts, false⟩],
             nextId := m.nextId + 1, closed := false }

/-- `SQLiteMemory.save_checkpoint(role, content)`: insert a checkpoint
row with `content` stored as given (no `json.dumps`), returning
`cur.lastrowid`. -/
def SQLiteMemory.save_checkpoint (m : SQLiteMemory) (role content : PyStr) (ts : Nat) :
    Except MemErr (SQLiteMemory × Nat) :=
  if m.closed then .error .storeClosed
  else .ok ({ entries := m.entries ++ [⟨m.nextId, role, content, ts, true⟩],
              nextId := m.nextId + 1, closed := false }, m.nextId)

/-- `ORDER BY id DESC` over a bag of selected rows. -/
def sqlOrderByIdDesc (l : List Entry) : List Entry :=
  l.insertionSort (fun a b => b.id ≤ a.id)

/-- `ORDER BY id ASC` over a bag of selected rows. -/
def sqlOrderByIdAsc (l : List Entry) : List Entry :=
  l.insertionSort (fun a b => a.id ≤ b.id)

/-- `SQLiteMemory.load_recent(limit)`:
`SELECT role, content FROM memory ORDER BY id DESC LIMIT ?`.
SQLite's `LIMIT` clause with a negative argument means "no limit".
Contents are returned as stored (no decode step here). -/
def SQLiteMemory.load_recent (m : SQLiteMemory) (limit : Int) :
    Except MemErr (List (PyStr × PyStr)) :=
  if m.closed then .error .storeClosed
  else
    let rows := sqlOrderByIdDesc m.entries
    let sel := if limit < 0 then rows else rows.take limit.toNat
    .ok (sel.map (fun e => (e.role, e.content)))

/-- `SQLiteMemory.load_from_checkpoint(checkpoint_id)`: first
`SELECT id FROM memory WHERE id = ? AND is_checkpoint = 1`; if that finds
nothing, print a diagnostic and return `[]`; otherwise
`SELECT role, content FROM memory WHERE id <= ? ORDER BY id ASC`.
The `Bool` of the result is `true` when the not-found diagnostic was
printed.  Contents are returned as stored (no decode step here). -/
def SQLiteMemory.load_from_checkpoint (m : SQLiteMemory) (k : Nat) :
    Except MemErr (List (PyStr × PyStr) × Bool) :=
  if m.closed then .error .storeClosed
  else if (m.entries.filter (fun e => e.id = k && e.is_checkpoint)).isEmpty then
    .ok ([], true)
  else
    .ok (((sqlOrderByIdAsc (m.entries.filter (fun e => e.id ≤ k))).map
      (fun e => (e.role, e.content))), false)

/-- `SQLiteMemory.close()`. -/
def SQLiteMemory.close (m : SQLiteMemory) : SQLiteMemory :=
  { m with closed := true }

/-! ### Round-trip lemmas for the codec. -/

theorem hexVal?_hexDig {d : Nat} (h : d < 16) : hexVal? (hexDig d) = some d := by
  unfold hexDig hexVal?
  rcases Nat.lt_or_ge d 10 with h10 | h10
  · rw [if_pos h10, if_pos (show 0x30 ≤ 0x30 + d ∧ 0x30 + d ≤ 0x39 by omega)]
    simp only [Option.some.injEq]
    omega
  · rw [if_neg (show ¬d < 10 by omega), if_neg (show ¬(0x30 ≤ 0x57 + d ∧ 0x57 + d ≤ 0x39) by omega),
      if_pos (show 0x61 ≤ 0x57 + d ∧ 0x57 + d ≤ 0x66 by omega)]
    simp only [Option.some.injEq]
    omega

theorem hex4?_hex4digits {n : Nat} (h : n < 0x10000) :
    hex4? (hexDig (n / 4096 % 16)) (hexDig (n / 256 % 16)) (hexDig (n / 16 % 16))
      (hexDig (n % 16)) = some n := by
  unfold hex4?
  rw [hexVal?_hexDig (Nat.mod_lt _ (by omega)), hexVal?_hexDig (Nat.mod_lt _ (by omega)),
    hexVal?_hexDig (Nat.mod_lt _ (by omega)), hexVal?_hexDig (Nat.mod_lt _ (by omega))]
  simp only [Option.some.injEq]
  omega

theorem scanString_quote (r : List Nat) : scanString (0x22 :: r) = some ([], r) := by
  simp [scanString]

theorem scanString_plain {c : Nat} (h22 : c ≠ 0x22) (h5C : c ≠ 0x5C) (hge : 0x20 ≤ c)
    (r : List Nat) :
    scanString (c :: r) = (scanString r).map (fun p => (c :: p.1, p.2)) := by
  rw [scanString.eq_def]
  split
  · simp_all
  · simp_all
  · simp_all
  · simp_all
  · simp_all
  · simp_all
  · rename_i heq
    injection heq with h1 h2
    subst h1; subst h2
    rw [if_neg (by omega)]

theorem scanString_esc {e d : Nat} (hd : escChar? e = some d) (r : List Nat) :
    scanString (0x5C :: e :: r) = (scanString r).map (fun p => (d :: p.1, p.2)) := by
  unfold escChar? at hd
  split_ifs at hd with h1 h2 h3 h4 h5 h6 h7 h8
  · injection hd with hd; subst h1 hd; simp [scanString, escChar?]
  · injection hd with hd; subst h2 hd; simp [scanString, escChar?]
  · injection hd with hd; subst h3 hd; simp [scanString, escChar?]
  · injection hd with hd; subst h4 hd; simp [scanString, escChar?]
  · injection hd with hd; subst h5 hd; simp [scanString, escChar?]
  · injection hd with hd; subst h6 hd; simp [scanString, escChar?]
  · injection hd with hd; subst h7 hd; simp [scanString, escChar?]
  · injection hd with hd; subst h8 hd; simp [scanString, escChar?]

theorem scanString_u {a b c' d n : Nat} (hn : hex4? a b c' d = some n)
    (hns : ¬(0xD800 ≤ n ∧ n ≤ 0xDBFF)) (r : List Nat) :
    scanString (0x5C :: 0x75 :: a :: b :: c' :: d :: r) =
      (scanString r).map (fun p => (n :: p.1, p.2)) := by
  rw [scanString.eq_def]
  split
  case h_1 heq => exact absurd heq (by simp)
  case h_2 heq => exact absurd heq (by simp)
  case h_3 heq =>
    simp only [List.cons.injEq, true_and] at heq
    obtain ⟨rfl, rfl, rfl, rfl, hr⟩ := heq
    simp only [hn]
    rw [if_neg hns, hr]
  case h_4 hnomatch heq =>
    simp only [List.cons.injEq, true_and] at heq
    obtain ⟨rfl, rfl, rfl, rfl, hr⟩ := heq
    simp only [hn]
    rw [if_neg hns, hr]
  case h_5 hno1 hno2 heq =>
    simp only [List.cons.injEq, true_and] at heq
    obtain ⟨he, hr⟩ := heq
    exact (hno2 a b c' d r he.symm hr.symm).elim
  case h_6 heq => exact absurd heq (by simp)
  case h_7 hne hno1 hno2 hno3 hno4 heq =>
    simp only [List.cons.injEq] at heq
    obtain ⟨hc, hr⟩ := heq
    exact (hno3 0x75 (a :: b :: c' :: d :: r) hc.symm hr.symm).elim

theorem scanString_pair {hi lo : Nat} (hhi : 0xD800 ≤ hi ∧ hi ≤ 0xDBFF)
    (hlo : 0xDC00 ≤ lo ∧ lo ≤ 0xDFFF) (r : List Nat) :
    scanString (0x5C :: 0x75 :: hexDig (hi / 4096 % 16) :: hexDig (hi / 256 % 16) ::
        hexDig (hi / 16 % 16) :: hexDig (hi % 16) :: 0x5C :: 0x75 ::
        hexDig (lo / 4096 % 16) :: hexDig (lo / 256 % 16) :: hexDig (lo / 16 % 16) ::
        hexDig (lo % 16) :: r) =
      (scanString r).map
        (fun p => ((0x10000 + (hi - 0xD800) * 0x400 + (lo - 0xDC00)) :: p.1, p.2)) := by
  rw [scanString.eq_def]
  dsimp only
  rw [hex4?_hex4digits (show hi < 0x10000 by omega)]
  dsimp only
  rw [if_pos hhi, hex4?_hex4digits (show lo < 0x10000 by omega)]
  dsimp only
  rw [if_pos hlo]

/-- Scanning the escaped body of `json.dumps` output recovers the original
code points, leaving everything after the closing quote untouched. -/
theorem scanString_flatMap (x : List Nat) (hx : ∀ c ∈ x, ValidChar c) (r : List Nat) :
    scanString (x.flatMap escapeChar ++ (0x22 :: r)) = some (x, r) := by
  induction x with
  | nil => simpa using scanString_quote r
  | cons c t ih =>
    have hc : ValidChar c := hx c (by simp)
    have ih' := ih (fun d hd => hx d (by simp [hd]))
    rw [List.flatMap_cons, List.append_assoc]
    rw [show escapeChar c ++ (t.flatMap escapeChar ++ (0x22 :: r)) =
      escapeChar c ++ (t.flatMap escapeChar ++ (0x22 :: r)) from rfl]
    by_cases h22 : c = 0x22
    · subst h22
      rw [show escapeChar 0x22 = [0x5C, 0x22] from rfl, List.cons_append, List.cons_append,
        List.nil_append, scanString_esc (show escChar? 0x22 = some 0x22 from rfl),
        ih']
      rfl
    · by_cases h5C : c = 0x5C
      · subst h5C
        rw [show escapeChar 0x5C = [0x5C, 0x5C] from rfl, List.cons_append, List.cons_append,
          List.nil_append, scanString_esc (show escChar? 0x5C = some 0x5C from rfl),
          ih']
        rfl
      · by_cases hpr : 0x20 ≤ c ∧ c ≤ 0x7E
        · rw [show escapeChar c = [c] from by
            unfold escapeChar; rw [if_neg h22, if_neg h5C, if_pos hpr]]
          rw [List.cons_append, List.nil_append, scanString_plain h22 h5C hpr.1, ih']
          rfl
        · by_cases hb : c = 0x08
          · subst hb
            rw [show escapeChar 0x08 = [0x5C, 0x62] from by decide, List.cons_append,
              List.cons_append, List.nil_append,
              scanString_esc (show escChar? 0x62 = some 0x08 from rfl), ih']
            rfl
          · by_cases ht : c = 0x09
            · subst ht
              rw [show escapeChar 0x09 = [0x5C, 0x74] from by decide, List.cons_append,
                List.cons_append, List.nil_append,
                scanString_esc (show escChar? 0x74 = some 0x09 from rfl), ih']
              rfl
            · by_cases hn : c = 0x0A
              · subst hn
                rw [show escapeChar 0x0A = [0x5C, 0x6E] from by decide, List.cons_append,
                  List.cons_append, List.nil_append,
                  scanString_esc (show escChar? 0x6E = some 0x0A from rfl), ih']
                rfl
              · by_cases hf : c = 0x0C
                · subst hf
                  rw [show escapeChar 0x0C = [0x5C, 0x66] from by decide, List.cons_append,
                    List.cons_append, List.nil_append,
                    scanString_esc (show escChar? 0x66 = some 0x0C from rfl), ih']
                  rfl
                · by_cases hr : c = 0x0D
                  · subst hr
                    rw [show escapeChar 0x0D = [0x5C, 0x72] from by decide, List.cons_append,
                      List.cons_append, List.nil_append,
                      scanString_esc (show escChar? 0x72 = some 0x0D from rfl), ih']
                    rfl
                  · by_cases hbmp : c < 0x10000
                    · rw [show escapeChar c = 0x5C :: 0x75 :: hex4digits c from by
                        unfold escapeChar
                        rw [if_neg h22, if_neg h5C, if_neg hpr, if_neg hb, if_neg ht, if_neg hn,
                          if_neg hf, if_neg hr, if_pos hbmp]]
                      unfold hex4digits
                      rw [List.cons_append, List.cons_append, List.cons_append, List.cons_append,
                        List.cons_append, List.cons_append, List.nil_append]
                      rw [scanString_u (hex4?_hex4digits hbmp)
                        (by rcases hc with h | h <;> omega), ih']
                      rfl
                    · have hrange : 0x10000 ≤ c ∧ c < 0x110000 := by
                        rcases hc with h | h <;> omega
                      rw [show escapeChar c =
                          (0x5C :: 0x75 :: hex4digits (0xD800 + (c - 0x10000) / 0x400)) ++
                            (0x5C :: 0x75 :: hex4digits (0xDC00 + (c - 0x10000) % 0x400)) from by
                        unfold escapeChar
                        rw [if_neg h22, if_neg h5C, if_neg hpr, if_neg hb, if_neg ht, if_neg hn,
                          if_neg hf, if_neg hr, if_neg hbmp]]
                      unfold hex4digits
                      simp only [List.cons_append, List.nil_append]
                      rw [scanString_pair
                        (by constructor <;> omega)
                        (by constructor <;> omega), ih']
                      simp only [Option.map_some']
                      have hcomb : 0x10000 + (0xD800 + (c - 0x10000) / 0x400 - 0xD800) * 0x400 +
                          (0xDC00 + (c - 0x10000) % 0x400 - 0xDC00) = c := by omega
                      rw [hcomb]

theorem parseValue_quote (fuel : Nat) (rest : List Nat) :
    parseValue (fuel + 1) (0x22 :: rest) =
      (scanString rest).map (fun p => (PyVal.str p.1, p.2)) := by
  rw [parseValue.eq_def]
  dsimp only
  rw [if_pos rfl]

/-- `json.loads` on `json.dumps` output recovers the original string. -/
theorem json_loads_encode (x : PyStr) (hx : ∀ c ∈ x, ValidChar c) :
    json_loads (encodeJSONString x) = some (.str x) := by
  unfold json_loads encodeJSONString
  have h1 : dropWS (0x22 :: (x.flatMap escapeChar ++ [0x22])) =
      0x22 :: (x.flatMap escapeChar ++ [0x22]) := by
    simp [dropWS, isJSONWS]
  rw [h1]
  rw [show 3 * (0x22 :: (x.flatMap escapeChar ++ [0x22])).length + 3 =
    (3 * (0x22 :: (x.flatMap escapeChar ++ [0x22])).length + 2) + 1 from rfl]
  rw [parseValue_quote]
  rw [show x.flatMap escapeChar ++ [0x22] = x.flatMap escapeChar ++ (0x22 :: []) from rfl]
  rw [scanString_flatMap x hx []]
  simp [dropWS]

theorem decodeElement_of_some {e : PyStr} {v : PyVal} (h : json_loads e = some v) :
    decodeElement e = v := by
  unfold decodeElement
  rw [h]

theorem decodeElement_of_none {e : PyStr} (h : json_loads e = none) :
    decodeElement e = .str (stripQuotes e) := by
  unfold decodeElement
  rw [h]

/-- The decode-with-fallback of the formatter inverts `json.dumps`. -/
theorem decodeElement_encode (x : PyStr) (hx : ∀ c ∈ x, ValidChar c) :
    decodeElement (encodeJSONString x) = .str x :=
  decodeElement_of_some (json_loads_encode x hx)

/-! ### Sorting lemmas: on a table whose rows were inserted with strictly
increasing ids, `ORDER BY id ASC` is the identity and `ORDER BY id DESC`
is reversal. -/

theorem orderedInsert_of_forall_not {α : Type} (r : α → α → Prop) [DecidableRel r] (a : α)
    (l : List α) (h : ∀ b ∈ l, ¬r a b) : l.orderedInsert r a = l ++ [a] := by
  induction l with
  | nil => rfl
  | cons b t ih =>
    rw [List.orderedInsert, if_neg (h b (by simp)), ih (fun x hx => h x (by simp [hx]))]
    rfl

theorem sqlOrderByIdDesc_of_sorted {l : List Entry}
    (h : l.Pairwise (fun a b => a.id < b.id)) : sqlOrderByIdDesc l = l.reverse := by
  induction l with
  | nil => rfl
  | cons a t ih =>
    have ht : t.Pairwise (fun a b => a.id < b.id) := h.of_cons
    have ha : ∀ b ∈ t, a.id < b.id := (List.pairwise_cons.mp h).1
    unfold sqlOrderByIdDesc at *
    rw [List.insertionSort, ih ht,
      orderedInsert_of_forall_not _ a t.reverse
        (fun b hb => by
          have := ha b (List.mem_reverse.mp hb)
          omega)]
    simp

theorem sqlOrderByIdAsc_of_sorted {l : List Entry}
    (h : l.Pairwise (fun a b => a.id < b.id)) : sqlOrderByIdAsc l = l := by
  induction l with
  | nil => rfl
  | cons a t ih =>
    have ht : t.Pairwise (fun a b => a.id < b.id) := h.of_cons
    have ha : ∀ b ∈ t, a.id < b.id := (List.pairwise_cons.mp h).1
    unfold sqlOrderByIdAsc at *
    rw [List.insertionSort_cons]
    · rw [ih ht]
    · exact fun b hb => Nat.le_of_lt (ha b hb)

/-! ### Well-formedness preservation. -/

theorem WF_init : WF SQLiteMemory.init := by
  constructor
  · exact List.Pairwise.nil
  · intro e he
    exact absurd he (List.not_mem_nil e)

theorem WF_save {m m' : SQLiteMemory} {role content : PyStr} {ts : Nat} (h : WF m)
    (hs : m.save role content ts = .ok m') : WF m' := by
  unfold SQLiteMemory.save at hs
  by_cases hc : m.closed
  · rw [if_pos hc] at hs
    exact Except.noConfusion hs
  · rw [if_neg hc] at hs
    injection hs with hs
    subst hs
    constructor
    · rw [List.pairwise_append]
      refine ⟨h.1, List.pairwise_singleton _ _, ?_⟩
      intro a ha b hb
      rw [List.mem_singleton] at hb
      subst hb
      exact h.2 a ha
    · intro e he
      rw [List.mem_append, List.mem_singleton] at he
      rcases he with he | he
      · have := h.2 e he
        dsimp only
        omega
      · subst he
        dsimp only
        omega

theorem WF_save_checkpoint {m m' : SQLiteMemory} {role content : PyStr} {ts k : Nat} (h : WF m)
    (hs : m.save_checkpoint role content ts = .ok (m', k)) : WF m' := by
  unfold SQLiteMemory.save_checkpoint at hs
  by_cases hc : m.closed
  · rw [if_pos hc] at hs
    exact Except.noConfusion hs
  · rw [if_neg hc] at hs
    injection hs with hs
    injection hs with hs hk
    subst hs
    subst hk
    constructor
    · rw [List.pairwise_append]
      refine ⟨h.1, List.pairwise_singleton _ _, ?_⟩
      intro a ha b hb
      rw [List.mem_singleton] at hb
      subst hb
      exact h.2 a ha
    · intro e he
      rw [List.mem_append, List.mem_singleton] at he
      rcases he with he | he
      · have := h.2 e he
        dsimp only
        omega
      · subst he
        dsimp only
        omega

/-! ### Formatter lemmas. -/

/-- Whether a decoded value is a Python `str` (the only values
`str.join` accepts). -/
def isStr : PyVal → Bool
  | .str _ => true
  | _ => false

/-- The text one element contributes to the formatted transcript: the
parsed string when it decodes as a JSON string, otherwise its raw form
with surrounding quotes stripped. -/
def elemText (e : PyStr) : PyStr :=
  match decodeElement e with
  | .str s => s
  | _ => stripQuotes e

theorem joinStrs_pair (sep s t : PyStr) :
    joinStrs sep [.str s, .str t] = some (s ++ sep ++ t) := by
  simp [joinStrs, strList?, List.intercalate, List.intersperse]

theorem convert_singleton (r c : PyStr) :
    convert_tuple_list_to_text [(r, c)] =
      joinStrs colonSep [decodeElement r, decodeElement c] := by
  unfold convert_tuple_list_to_text formattedParts
  cases hj : joinStrs colonSep [decodeElement r, decodeElement c] with
  | none => simp
  | some s => simp [formattedParts, List.intercalate, List.intersperse]

theorem isStr_exists {v : PyVal} (h : isStr v = true) : ∃ s, v = .str s := by
  cases v <;> simp_all [isStr]

theorem elemText_of_str {e : PyStr} {s : PyStr} (h : decodeElement e = .str s) :
    elemText e = s := by
  unfold elemText
  rw [h]

/-! ### Example stores used in concrete witnesses and counterexamples. -/

/-- The store after `save("user", "hi")` on a fresh store. -/
def store1 : SQLiteMemory :=
  { entries := [⟨1, pystr "user", encodeJSONString (pystr "hi"), 0, false⟩],
    nextId := 2, closed := false }

/-- The store after `save_checkpoint("supervisor_agent", "rag_task")` on a
fresh store. -/
def storeCk : SQLiteMemory :=
  { entries := [⟨1, pystr "supervisor_agent", pystr "rag_task", 0, true⟩],
    nextId := 2, closed := false }

/-! ### The claims. -/

/-- C1: codec round-trip.  For every text `x` (every sequence of Unicode
scalar values, including the empty string, strings containing `": "`, and
strings containing quote and backslash characters), decoding the encoded
form returns `x` exactly: the formatter's parse-with-fallback applied to
`json.dumps(x)` yields `x`. -/
theorem c1_codec_round_trip (x : PyStr) (hx : ∀ c ∈ x, ValidChar c) :
    decodeElement (encodeJSONString x) = .str x :=
  decodeElement_encode x hx

/-- C1 witness: the round-trip at a concrete string containing the
formatter's `": "` delimiter, a quote and a backslash. -/
theorem c1_witness :
    (∀ c ∈ pystr "a: \"b\\c\"", ValidChar c) ∧
    decodeElement (encodeJSONString (pystr "a: \"b\\c\"")) = .str (pystr "a: \"b\\c\"") :=
  ⟨by decide, c1_codec_round_trip (pystr "a: \"b\\c\"") (by decide)⟩

/-- C9: after `close()`, both `save` and `load_recent` fail immediately
with the closed-store error (`sqlite3.ProgrammingError`, the spec's
`StoreClosed`), rather than silently succeeding or writing to the log. -/
theorem c9_store_closed (m : SQLiteMemory) (role content : PyStr) (ts : Nat) (n : Int) :
    (m.close).save role content ts = .error .storeClosed ∧
    (m.close).load_recent n = .error .storeClosed :=
  ⟨rfl, rfl⟩

/-- C10: the formatter applies the JSON-decode-with-fallback step to every
element of each tuple, including the role: the formatted text of a pair is
the join of the decoded role and decoded content; a role that parses as
JSON is replaced by its parsed value, and one that does not parse has its
surrounding double quotes stripped. -/
theorem c10_role_decoded (r c : PyStr) :
    convert_tuple_list_to_text [(r, c)] =
      joinStrs colonSep [decodeElement r, decodeElement c] ∧
    (∀ v, json_loads r = some v → decodeElement r = v) ∧
    (json_loads r = none → decodeElement r = .str (stripQuotes r)) :=
  ⟨convert_singleton r c,
   fun _ hv => decodeElement_of_some hv,
   fun hn => decodeElement_of_none hn⟩

/-- C10 witness: the theorem at a quoted role (which parses as JSON and is
replaced by its parsed value) and a plain content. -/
theorem c10_witness :
    convert_tuple_list_to_text [(pystr "user", pystr "plain")] =
      joinStrs colonSep
        [decodeElement (pystr "user"), decodeElement (pystr "plain")] ∧
    (∀ v, json_loads (pystr "user") = some v → decodeElement (pystr "user") = v) ∧
    (json_loads (pystr "user") = none →
      decodeElement (pystr "user") = .str (stripQuotes (pystr "user"))) :=
  c10_role_decoded (pystr "user") (pystr "plain")

/-- C6: `save_checkpoint(label, payload)` appends exactly one entry, with
`is_checkpoint = true`, `role = label`, and `content` stored byte-for-byte
equal to `payload` (no `json.dumps` encode step), and returns the id
assigned to that entry. -/
theorem c6_checkpoint_bypasses_codec (m : SQLiteMemory) (hc : m.closed = false)
    (label payload : PyStr) (ts : Nat) :
    m.save_checkpoint label payload ts =
      .ok ({ entries := m.entries ++ [⟨m.nextId, label, payload, ts, true⟩],
             nextId := m.nextId + 1, closed := false }, m.nextId) := by
  unfold SQLiteMemory.save_checkpoint
  rw [hc]
  rfl

/-- C6 witness: the checkpoint append on a fresh store; the payload is
stored verbatim even though it contains a quote and a backslash. -/
theorem c6_witness :
    SQLiteMemory.init.closed = false ∧
    SQLiteMemory.init.save_checkpoint (pystr "agent") (pystr "a\\\"b") 7 =
      .ok ({ entries := SQLiteMemory.init.entries ++
               [⟨SQLiteMemory.init.nextId, pystr "agent", pystr "a\\\"b", 7, true⟩],
             nextId := SQLiteMemory.init.nextId + 1, closed := false },
           SQLiteMemory.init.nextId) :=
  ⟨rfl, c6_checkpoint_bypasses_codec SQLiteMemory.init rfl (pystr "agent") (pystr "a\\\"b") 7⟩

/-- C5: fail-closed checkpoint lookup.  On an open store, if no entry has
id `k` with the checkpoint flag set (the id is absent or belongs to a
non-checkpoint entry), `load_from_checkpoint(k)` returns the empty
sequence together with the printed diagnostic, and raises nothing. -/
theorem c5_fail_closed (m : SQLiteMemory) (hc : m.closed = false) (k : Nat)
    (h : ∀ e ∈ m.entries, e.id = k → e.is_checkpoint = false) :
    m.load_from_checkpoint k = .ok ([], true) := by
  unfold SQLiteMemory.load_from_checkpoint
  rw [hc]
  have hfil : m.entries.filter (fun e => e.id = k && e.is_checkpoint) = [] := by
    rw [List.filter_eq_nil_iff]
    intro e he
    by_cases hid : e.id = k
    · simp [hid, h e he hid]
    · simp [hid]
  rw [hfil]
  rfl

/-- C5 witness: lookups of a non-checkpoint id and of an absent id on the
one-entry store both return the empty sequence plus the diagnostic. -/
theorem c5_witness :
    store1.closed = false ∧
    (∀ e ∈ store1.entries, e.id = 99 → e.is_checkpoint = false) ∧
    store1.load_from_checkpoint 99 = .ok ([], true) :=
  ⟨rfl, by decide, c5_fail_closed store1 rfl 99 (by decide)⟩

/-- C2 counterexample: the claim's second half ("for every limit <= 0,
`load_recent(limit)` returns the empty sequence") is false: SQLite treats
a negative `LIMIT` as "no limit", so on the one-entry store reached by a
single `save`, `load_recent(-1)` returns that entry, not the empty
sequence. -/
theorem c2_counterexample :
    SQLiteMemory.init.save (pystr "user") (pystr "hi") 0 = .ok store1 ∧
    (-1 : Int) ≤ 0 ∧
    store1.load_recent (-1) =
      .ok [(pystr "user", encodeJSONString (pystr "hi"))] ∧
    [(pystr "user", encodeJSONString (pystr "hi"))] ≠ ([] : List (PyStr × PyStr)) :=
  ⟨rfl, by norm_num, rfl, by decide⟩

/-- C2 amended: on every well-formed open store, `load_recent(n)` with
`n >= 0` returns exactly `min(n, total_entries)` (role, content) pairs,
the pairs of the `min(n, total_entries)` highest-id entries in strictly
descending id order; `load_recent(0)` returns the empty sequence; and a
negative limit returns all entries (SQLite's negative `LIMIT` means "no
limit"), still in descending id order. -/
theorem c2_load_recent_spec (m : SQLiteMemory) (h : WF m) (hc : m.closed = false) (n : Int) :
    m.load_recent n =
      .ok ((if n < 0 then m.entries.reverse else m.entries.reverse.take n.toNat).map
        (fun e => (e.role, e.content))) ∧
    (0 ≤ n →
      ((if n < 0 then m.entries.reverse else m.entries.reverse.take n.toNat).map
        (fun e => (e.role, e.content))).length = min n.toNat m.entries.length) ∧
    (if n < 0 then m.entries.reverse else m.entries.reverse.take n.toNat).Pairwise
      (fun a b => b.id < a.id) := by
  have hrows : sqlOrderByIdDesc m.entries = m.entries.reverse :=
    sqlOrderByIdDesc_of_sorted h.1
  have hrev : m.entries.reverse.Pairwise (fun a b => b.id < a.id) :=
    List.pairwise_reverse.mpr h.1
  refine ⟨?_, ?_, ?_⟩
  · unfold SQLiteMemory.load_recent
    rw [hc]
    simp only [Bool.false_eq_true, if_false, hrows]
  · intro hn
    rw [if_neg (by omega), List.length_map, List.length_take, List.length_reverse]
  · by_cases hneg : n < 0
    · rw [if_pos hneg]
      exact hrev
    · rw [if_neg hneg]
      exact hrev.sublist (List.take_sublist _ _)

/-- C2 witness: the amended statement instantiated on the one-entry store
with `n = 1`. -/
theorem c2_witness :
    WF store1 ∧ store1.closed = false ∧
    (store1.load_recent 1 =
      .ok ((if (1 : Int) < 0 then store1.entries.reverse
            else store1.entries.reverse.take (1 : Int).toNat).map
        (fun e => (e.role, e.content))) ∧
    (0 ≤ (1 : Int) →
      ((if (1 : Int) < 0 then store1.entries.reverse
        else store1.entries.reverse.take (1 : Int).toNat).map
        (fun e => (e.role, e.content))).length = min (1 : Int).toNat store1.entries.length) ∧
    (if (1 : Int) < 0 then store1.entries.reverse
     else store1.entries.reverse.take (1 : Int).toNat).Pairwise
      (fun a b => b.id < a.id)) :=
  ⟨by constructor <;> decide, rfl, c2_load_recent_spec store1 (by constructor <;> decide) rfl 1⟩

/-- C3: checkpoint-bounded replay.  On a well-formed store, when
`save_checkpoint(label, payload)` returns id `k`, the new table is the old
one plus the checkpoint row, its ids are strictly ascending, and
`load_from_checkpoint(k)` returns every entry (all previously saved ones
plus the checkpoint) in that ascending id order with no diagnostic, the
last returned pair being `(label, payload)` — so its role is `label`. -/
theorem c3_checkpoint_replay (m m' : SQLiteMemory) (label payload : PyStr) (ts k : Nat)
    (h : WF m) (hs : m.save_checkpoint label payload ts = .ok (m', k)) :
    m'.entries = m.entries ++ [⟨k, label, payload, ts, true⟩] ∧
    m'.entries.Pairwise (fun a b => a.id < b.id) ∧
    m'.load_from_checkpoint k =
      .ok (m'.entries.map (fun e => (e.role, e.content)), false) ∧
    (m'.entries.map (fun e => (e.role, e.content))).getLast? = some (label, payload) := by
  have hwf' : WF m' := WF_save_checkpoint h hs
  unfold SQLiteMemory.save_checkpoint at hs
  by_cases hcl : m.closed
  · rw [if_pos hcl] at hs
    exact Except.noConfusion hs
  · rw [if_neg hcl] at hs
    injection hs with hs
    injection hs with hs1 hk
    have hent : m'.entries = m.entries ++ [⟨k, label, payload, ts, true⟩] := by
      rw [← hs1, ← hk]
    have hclosed : m'.closed = false := by
      rw [← hs1]
    have hkid : m.nextId = k := hk
    refine ⟨hent, hwf'.1, ?_, ?_⟩
    · unfold SQLiteMemory.load_from_checkpoint
      rw [if_neg (show ¬m'.closed = true by simp [hclosed])]
      have hckmem : (⟨k, label, payload, ts, true⟩ : Entry) ∈ m'.entries := by
        rw [hent]
        simp
      have hfil1 : ¬(m'.entries.filter (fun e => e.id = k && e.is_checkpoint)).isEmpty = true := by
        rw [List.isEmpty_iff]
        exact List.ne_nil_of_mem (List.mem_filter.mpr ⟨hckmem, by simp⟩)
      rw [if_neg hfil1]
      have hfil2 : m'.entries.filter (fun e => e.id ≤ k) = m'.entries := by
        rw [List.filter_eq_self]
        intro e he
        rw [hent, List.mem_append, List.mem_singleton] at he
        rcases he with he | he
        · have := h.2 e he
          simp only [decide_eq_true_eq]
          omega
        · subst he
          simp
      rw [hfil2, sqlOrderByIdAsc_of_sorted hwf'.1]
    · rw [hent, List.map_append]
      exact List.getLast?_concat _

/-- C3 witness: the replay property after checkpointing
`("supervisor_agent", "rag_task")` on a fresh store. -/
theorem c3_witness :
    WF SQLiteMemory.init ∧
    SQLiteMemory.init.save_checkpoint (pystr "supervisor_agent") (pystr "rag_task") 0 =
      .ok (storeCk, 1) ∧
    (storeCk.entries =
      SQLiteMemory.init.entries ++ [⟨1, pystr "supervisor_agent", pystr "rag_task", 0, true⟩] ∧
    storeCk.entries.Pairwise (fun a b => a.id < b.id) ∧
    storeCk.load_from_checkpoint 1 =
      .ok (storeCk.entries.map (fun e => (e.role, e.content)), false) ∧
    (storeCk.entries.map (fun e => (e.role, e.content))).getLast? =
      some (pystr "supervisor_agent", pystr "rag_task")) :=
  ⟨WF_init, rfl,
   c3_checkpoint_replay SQLiteMemory.init storeCk (pystr "supervisor_agent")
     (pystr "rag_task") 0 1 WF_init rfl⟩

/-- C4 counterexample: reads do not decode.  After `save("user", "hi")`,
`load_recent(1)` returns the stored `json.dumps` form (the quoted string
`"hi"`), which differs from the original text, while the codec's decode
step would have recovered `hi`. -/
theorem c4_counterexample :
    SQLiteMemory.init.save (pystr "user") (pystr "hi") 0 = .ok store1 ∧
    store1.load_recent 1 = .ok [(pystr "user", encodeJSONString (pystr "hi"))] ∧
    encodeJSONString (pystr "hi") ≠ pystr "hi" ∧
    decodeElement (encodeJSONString (pystr "hi")) = .str (pystr "hi") :=
  ⟨rfl, rfl, by decide, decodeElement_encode (pystr "hi") (by decide)⟩

/-- C4 amended: every pair returned by `load_recent` or
`load_from_checkpoint` is the role and the raw stored content of some
table row, exactly as stored (encoded for `save` rows); no decode step
runs on the read path — decoding happens only in the formatter. -/
theorem c4_reads_raw (m : SQLiteMemory) (hc : m.closed = false) :
    (∀ (n : Int) (l : List (PyStr × PyStr)), m.load_recent n = .ok l →
      ∀ p ∈ l, ∃ e ∈ m.entries, p = (e.role, e.content)) ∧
    (∀ (k : Nat) (rows : List (PyStr × PyStr)) (b : Bool),
      m.load_from_checkpoint k = .ok (rows, b) →
      ∀ p ∈ rows, ∃ e ∈ m.entries, p = (e.role, e.content)) := by
  constructor
  · intro n l hl p hp
    unfold SQLiteMemory.load_recent at hl
    rw [if_neg (show ¬m.closed = true by simp [hc])] at hl
    dsimp only at hl
    injection hl with hl
    subst hl
    rw [List.mem_map] at hp
    obtain ⟨e, he, hpe⟩ := hp
    refine ⟨e, ?_, hpe.symm⟩
    by_cases hneg : n < 0
    · rw [if_pos hneg] at he
      exact (List.mem_insertionSort _).mp he
    · rw [if_neg hneg] at he
      exact (List.mem_insertionSort _).mp ((List.take_sublist _ _).mem he)
  · intro k rows b hl p hp
    unfold SQLiteMemory.load_from_checkpoint at hl
    rw [if_neg (show ¬m.closed = true by simp [hc])] at hl
    by_cases hemp : (m.entries.filter (fun e => e.id = k && e.is_checkpoint)).isEmpty = true
    · rw [if_pos hemp] at hl
      injection hl with hl
      injection hl with hl1 hl2
      subst hl1
      exact absurd hp (List.not_mem_nil p)
    · rw [if_neg hemp] at hl
      injection hl with hl
      injection hl with hl1 hl2
      subst hl1
      rw [List.mem_map] at hp
      obtain ⟨e, he, hpe⟩ := hp
      have he2 : e ∈ m.entries.filter (fun e => e.id ≤ k) :=
        (List.mem_insertionSort _).mp he
      exact ⟨e, (List.mem_filter.mp he2).1, hpe.symm⟩

/-- C4 witness: the amended statement on the one-entry store, where the
returned pair is exactly the stored row. -/
theorem c4_witness :
    store1.closed = false ∧
    ((∀ (n : Int) (l : List (PyStr × PyStr)), store1.load_recent n = .ok l →
      ∀ p ∈ l, ∃ e ∈ store1.entries, p = (e.role, e.content)) ∧
    (∀ (k : Nat) (rows : List (PyStr × PyStr)) (b : Bool),
      store1.load_from_checkpoint k = .ok (rows, b) →
      ∀ p ∈ rows, ∃ e ∈ store1.entries, p = (e.role, e.content))) :=
  ⟨rfl, c4_reads_raw store1 rfl⟩

/-- C7 counterexample: the formatter can raise.  The element `"123"`
parses as JSON (an `int`), so it is not replaced by a string, and the
`": ".join` over `("user", "123")` raises `TypeError`, aborting the whole
format. -/
theorem c7_counterexample :
    json_loads (pystr "123") = some (.int 123) ∧
    convert_tuple_list_to_text [(pystr "user", pystr "123")] = none :=
  ⟨rfl, rfl⟩

theorem formattedParts_of_str : ∀ data : List (PyStr × PyStr),
    (∀ p ∈ data, isStr (decodeElement p.1) = true ∧ isStr (decodeElement p.2) = true) →
    formattedParts data =
      some (data.map (fun p => elemText p.1 ++ colonSep ++ elemText p.2)) := by
  intro data
  induction data with
  | nil => intro _; rfl
  | cons p t ih =>
    intro h
    obtain ⟨r, c⟩ := p
    obtain ⟨h1, h2⟩ := h (r, c) (by simp)
    obtain ⟨s, hs⟩ := isStr_exists h1
    obtain ⟨u, hu⟩ := isStr_exists h2
    dsimp only at hs hu
    rw [show formattedParts ((r, c) :: t) =
      (match joinStrs colonSep [decodeElement r, decodeElement c] with
       | none => none
       | some s => (formattedParts t).map (fun l => s :: l)) from rfl]
    rw [hs, hu, joinStrs_pair, ih (fun q hq => h q (List.mem_cons_of_mem _ hq))]
    rw [List.map_cons]
    dsimp only
    rw [elemText_of_str hs, elemText_of_str hu]
    rfl

/-- C7 amended: the formatter never raises on elements that fail JSON
parsing — each such element degrades to its raw string form with its
surrounding double quotes stripped — and the join over all entries
completes whenever every element that does parse as JSON parses as a JSON
string; an element parsing as non-string JSON (e.g. `"123"`) instead makes
the join raise `TypeError`. -/
theorem c7_formatter_fallback (data : List (PyStr × PyStr))
    (h : ∀ p ∈ data, isStr (decodeElement p.1) = true ∧ isStr (decodeElement p.2) = true) :
    convert_tuple_list_to_text data =
      some (List.intercalate [0x0A]
        (data.map (fun p => elemText p.1 ++ colonSep ++ elemText p.2))) ∧
    (∀ e : PyStr, json_loads e = none → elemText e = stripQuotes e) := by
  constructor
  · unfold convert_tuple_list_to_text
    rw [formattedParts_of_str data h]
    rfl
  · intro e he
    unfold elemText
    rw [decodeElement_of_none he]

/-- C7 witness: a malformed element (text with an embedded quoted word,
which `json.loads` rejects) degrades to its quote-stripped raw form and
the whole join still succeeds. -/
theorem c7_witness :
    (∀ p ∈ [(pystr "user", pystr "say \"hi\"")],
      isStr (decodeElement p.1) = true ∧ isStr (decodeElement p.2) = true) ∧
    (convert_tuple_list_to_text [(pystr "user", pystr "say \"hi\"")] =
      some (List.intercalate [0x0A]
        ([(pystr "user", pystr "say \"hi\"")].map
          (fun p => elemText p.1 ++ colonSep ++ elemText p.2))) ∧
    (∀ e : PyStr, json_loads e = none → elemText e = stripQuotes e)) :=
  ⟨by decide, c7_formatter_fallback [(pystr "user", pystr "say \"hi\"")] (by decide)⟩

/-- C8: end-to-end round-trip.  For a content string containing embedded
newlines and the literal `": "`, saving it, reading it back with
`load_recent`, and formatting reproduces the content exactly: the
formatted line is the (quote-stripped) role, the single `": "` the
formatter inserts, then the content byte-for-byte. -/
theorem c8_end_to_end (m m' : SQLiteMemory) (h : WF m) (r x : PyStr) (ts : Nat)
    (hr : json_loads r = none) (hx : ∀ c ∈ x, ValidChar c)
    (_hnl : 0x0A ∈ x) (_hcolon : ∃ u v, x = u ++ colonSep ++ v)
    (hs : m.save r x ts = .ok m') :
    m'.load_recent 1 = .ok [(r, encodeJSONString x)] ∧
    convert_tuple_list_to_text [(r, encodeJSONString x)] =
      some (stripQuotes r ++ colonSep ++ x) := by
  have hwf' : WF m' := WF_save h hs
  unfold SQLiteMemory.save at hs
  by_cases hcl : m.closed
  · rw [if_pos hcl] at hs
    exact Except.noConfusion hs
  · rw [if_neg hcl] at hs
    injection hs with hs1
    have hent : m'.entries = m.entries ++ [⟨m.nextId, r, encodeJSONString x, ts, false⟩] := by
      rw [← hs1]
    have hclosed : m'.closed = false := by
      rw [← hs1]
    constructor
    · unfold SQLiteMemory.load_recent
      rw [if_neg (show ¬m'.closed = true by simp [hclosed])]
      dsimp only
      rw [if_neg (show ¬(1 : Int) < 0 by norm_num),
        sqlOrderByIdDesc_of_sorted hwf'.1, hent, List.reverse_append]
      rfl
    · rw [convert_singleton, decodeElement_of_none hr, decodeElement_encode x hx,
        joinStrs_pair]

/-- C8 witness: the pipeline at role `"User"` and content `"a\nb: c"`,
which contains an embedded newline and a literal `": "`. -/
theorem c8_witness :
    WF SQLiteMemory.init ∧
    json_loads (pystr "User") = none ∧
    (0x0A ∈ pystr "a\nb: c") ∧
    SQLiteMemory.init.save (pystr "User") (pystr "a\nb: c") 0 =
      .ok ⟨[⟨1, pystr "User", encodeJSONString (pystr "a\nb: c"), 0, false⟩], 2, false⟩ ∧
    (SQLiteMemory.mk [⟨1, pystr "User", encodeJSONString (pystr "a\nb: c"), 0, false⟩] 2
        false).load_recent 1 =
      .ok [(pystr "User", encodeJSONString (pystr "a\nb: c"))] ∧
    convert_tuple_list_to_text [(pystr "User", encodeJSONString (pystr "a\nb: c"))] =
      some (stripQuotes (pystr "User") ++ colonSep ++ pystr "a\nb: c") := by
  refine ⟨WF_init, rfl, by decide, rfl, ?_⟩
  exact c8_end_to_end SQLiteMemory.init _ WF_init (pystr "User") (pystr "a\nb: c") 0 rfl
    (by decide) (by decide) ⟨pystr "a\nb", pystr "c", by decide⟩ rfl

end AgenticChat
